import Mathlib

/-
Verification of the IdenaAuthGo identity snapshot and whitelist commitment
engine: a shallow embedding, in Lean 4, of the rolling indexer
(rolling_indexer/main.go together with schema.sql), the batch identity
fetcher (agents/identity_fetcher.go), and the commitment builder described
in the design document, together with theorems settling the specified
properties of eligibility, ingestion, storage and commitments.

Conventions of the embedding:
- stakes are modelled as rationals (the design document describes stake as a
  non-negative rational quantity whose comparisons at the 10000 threshold
  must be exact);
- timestamps are abstract natural numbers supplied explicitly where the Go
  code calls time.Now() or SQLite fills CURRENT_TIMESTAMP;
- the SQLite identities table is an association list from address to row,
  whose primary-key property is the keysNodup invariant;
- network interactions are abstracted as oracles: a value of type
  Option describes the outcome the remote endpoint produced for a call.
-/

namespace IdenaAuth

/-! ## Eligibility evaluator

From rolling_indexer/main.go, handleEligibleIdentities, and the
eligible_identities view of schema.sql: an identity row is eligible when
state IN ('Human', 'Verified', 'Newbie') AND stake >= 10000. -/

/-- The minimum stake threshold appearing literally in the SQL of
handleEligibleIdentities and of the eligible_identities view. -/
def MIN_STAKE_THRESHOLD : ℚ := 10000

/-- An identity record as delivered by the dna_identities RPC and stored by
the rolling indexer (rolling_indexer/main.go, type IdenaIdentity). -/
structure IdenaIdentity where
  address : String
  state : String
  stake : ℚ
deriving DecidableEq, Repr

/-- The state disjunction of the WHERE clause:
state IN ('Human', 'Verified', 'Newbie'). -/
def eligibleState (state : String) : Bool :=
  state == "Human" || state == "Verified" || state == "Newbie"

/-- The full WHERE clause of handleEligibleIdentities and of the
eligible_identities view: eligible state and stake >= 10000. -/
def eligible (state : String) (stake : ℚ) : Bool :=
  eligibleState state && decide (MIN_STAKE_THRESHOLD ≤ stake)

/-- Claim C1: an identity record is evaluated eligible exactly when its state
is Human, Verified or Newbie and its stake is at least 10000; in particular a
record with stake exactly 10000 in an eligible state is eligible, and one
with stake any positive amount below 10000 is not. -/
theorem eligible_characterization :
    (∀ r : IdenaIdentity,
      eligible r.state r.stake = true ↔
        ((r.state = "Human" ∨ r.state = "Verified" ∨ r.state = "Newbie") ∧
          (10000 : ℚ) ≤ r.stake)) ∧
    (eligible "Human" (10000 : ℚ) = true) ∧
    (∀ ε : ℚ, 0 < ε → eligible "Human" ((10000 : ℚ) - ε) = false) := by
  refine ⟨?_, ?_, ?_⟩
  · intro r
    simp only [eligible, eligibleState, MIN_STAKE_THRESHOLD, Bool.and_eq_true,
      Bool.or_eq_true, beq_iff_eq, decide_eq_true_iff]
    tauto
  · simp [eligible, eligibleState, MIN_STAKE_THRESHOLD]
  · intro ε hε
    simp [eligible, eligibleState, MIN_STAKE_THRESHOLD]
    linarith

/-- Witness for C1: the boundary instances evaluated concretely; the
just-below-the-threshold record with stake 9999 is ineligible. -/
theorem eligible_characterization_witness :
    eligible "Human" ((10000 : ℚ) - 1) = false ∧
    ((⟨"0xa", "Human", 10000⟩ : IdenaIdentity).state = "Human" ∨
      (⟨"0xa", "Human", (10000 : ℚ)⟩ : IdenaIdentity).state = "Verified" ∨
      (⟨"0xa", "Human", (10000 : ℚ)⟩ : IdenaIdentity).state = "Newbie") ∧
    (10000 : ℚ) ≤ (⟨"0xa", "Human", (10000 : ℚ)⟩ : IdenaIdentity).stake :=
  ⟨eligible_characterization.2.2 1 (by norm_num),
    (eligible_characterization.1 ⟨"0xa", "Human", (10000 : ℚ)⟩).mp
      eligible_characterization.2.1⟩

/-! ## Identity store

The SQLite identities table of schema.sql: address TEXT PRIMARY KEY, state
TEXT NOT NULL, stake REAL NOT NULL, timestamp and updated_at DATETIME.  The
table is an association list from address to row; the primary-key property
is keysNodup.  INSERT OR REPLACE (used by updateDatabase) deletes any
conflicting row and inserts a fresh one, so the unlisted timestamp column is
re-filled from its CURRENT_TIMESTAMP default. -/

/-- One row of the identities table, without its address key. -/
structure IdentityRow where
  state : String
  stake : ℚ
  timestamp : Nat
  updated_at : Nat
deriving DecidableEq, Repr

/-- The identities table: an association list keyed by address. -/
abbrev Store := List (String × IdentityRow)

/-- SELECT by primary key: the first row stored under the address. -/
def lookupAddr : Store → String → Option IdentityRow
  | [], _ => none
  | (b, row) :: rest, a => if b = a then some row else lookupAddr rest a

/-- The PRIMARY KEY invariant of the identities table: no two rows share an
address. -/
def keysNodup (db : Store) : Prop := (db.map Prod.fst).Nodup

/-- The row written for an identity by the INSERT OR REPLACE of
updateDatabase executed at time now: state and stake from the fetched
record, updated_at bound to time.Now() by the Go code, and the unlisted
timestamp column re-filled from its CURRENT_TIMESTAMP default because
REPLACE inserts a fresh row. -/
def rowOf (id : IdenaIdentity) (now : Nat) : IdentityRow :=
  { state := id.state, stake := id.stake, timestamp := now, updated_at := now }

/-- INSERT OR REPLACE INTO identities: replace the row at the address if one
exists (in place), otherwise insert a new row. -/
def upsertRow : Store → String → IdentityRow → Store
  | [], a, row => [(a, row)]
  | (b, old) :: rest, a, row =>
      if b = a then (a, row) :: rest else (b, old) :: upsertRow rest a row

/-- One stmt.Exec of the prepared INSERT OR REPLACE for one identity. -/
def execUpsert (now : Nat) (db : Store) (id : IdenaIdentity) : Store :=
  upsertRow db id.address (rowOf id now)

/-- updateDatabase of rolling_indexer/main.go: begin a transaction, run the
prepared INSERT OR REPLACE for each identity of the batch - an identity
whose Exec fails is logged and skipped (the loop continues) - then commit;
if the commit fails the deferred rollback leaves the store unchanged.  The
oracle execFails tells which Exec calls fail, commitFails whether the final
commit fails. -/
def updateDatabase (db : Store) (identities : List IdenaIdentity)
    (execFails : IdenaIdentity → Bool) (commitFails : Bool) (now : Nat) : Store :=
  let txState := identities.foldl
    (fun acc id => if execFails id then acc else execUpsert now acc id) db
  if commitFails then db else txState

/-- The observable (address, state, stake) content of the store, as served
by the query handlers apart from the timestamp columns. -/
def contentOf (db : Store) : List (String × String × ℚ) :=
  db.map (fun e => (e.1, e.2.state, e.2.stake))

theorem lookupAddr_upsertRow (db : Store) (a : String) (row : IdentityRow)
    (c : String) :
    lookupAddr (upsertRow db a row) c =
      if a = c then some row else lookupAddr db c := by
  induction db with
  | nil => simp [upsertRow, lookupAddr]
  | cons e rest ih =>
      obtain ⟨b, old⟩ := e
      by_cases hba : b = a
      · subst hba
        simp only [upsertRow, if_pos rfl]
        by_cases hac : b = c
        · subst hac
          simp [lookupAddr]
        · simp [lookupAddr, hac]
      · simp only [upsertRow, if_neg hba]
        by_cases hbc : b = c
        · subst hbc
          have hac : a ≠ b := fun h => hba h.symm
          simp [lookupAddr, hac]
        · simp [lookupAddr, hbc, ih]

theorem mem_keys_upsertRow (db : Store) (a : String) (row : IdentityRow)
    (c : String) :
    c ∈ (upsertRow db a row).map Prod.fst ↔
      c = a ∨ c ∈ db.map Prod.fst := by
  induction db with
  | nil => simp [upsertRow]
  | cons e rest ih =>
      obtain ⟨b, old⟩ := e
      by_cases hba : b = a
      · subst hba
        simp [upsertRow]
      · simp only [upsertRow, if_neg hba, List.map_cons, List.mem_cons, ih]
        tauto

theorem keysNodup_upsertRow (db : Store) (a : String) (row : IdentityRow)
    (h : keysNodup db) : keysNodup (upsertRow db a row) := by
  induction db with
  | nil => simp [keysNodup, upsertRow]
  | cons e rest ih =>
      obtain ⟨b, old⟩ := e
      simp only [keysNodup, List.map_cons, List.nodup_cons] at h
      by_cases hba : b = a
      · subst hba
        simpa [keysNodup, upsertRow, List.nodup_cons] using h
      · simp only [keysNodup, upsertRow, if_neg hba, List.map_cons,
          List.nodup_cons]
        refine ⟨?_, ih h.2⟩
        rw [mem_keys_upsertRow]
        push_neg
        exact ⟨hba, h.1⟩

theorem keysNodup_execUpsert (now : Nat) (db : Store) (id : IdenaIdentity)
    (h : keysNodup db) : keysNodup (execUpsert now db id) :=
  keysNodup_upsertRow db id.address (rowOf id now) h

theorem keysNodup_foldl_execUpsert (now : Nat) (execFails : IdenaIdentity → Bool) :
    ∀ (ids : List IdenaIdentity) (db : Store), keysNodup db →
      keysNodup (ids.foldl
        (fun acc id => if execFails id then acc else execUpsert now acc id) db) := by
  intro ids
  induction ids with
  | nil => intro db h; simpa using h
  | cons id rest ih =>
      intro db h
      simp only [List.foldl_cons]
      by_cases hf : execFails id
      · simpa [hf] using ih db h
      · simpa [hf] using ih (execUpsert now db id) (keysNodup_execUpsert now db id h)

/-- Claim C5: the store keeps at most one row per address (the primary-key
invariant is preserved by every updateDatabase call), and an upsert of an
address replaces the row wholesale - the resulting row's state, stake and
both timestamp columns come entirely from the new record and the write time,
never from the previously stored row. -/
theorem identities_unique_wholesale :
    (∀ (db : Store) (id : IdenaIdentity) (now : Nat),
      lookupAddr (execUpsert now db id) id.address = some (rowOf id now)) ∧
    (∀ (db : Store) (ids : List IdenaIdentity) (execFails : IdenaIdentity → Bool)
        (commitFails : Bool) (now : Nat),
      keysNodup db → keysNodup (updateDatabase db ids execFails commitFails now)) := by
  constructor
  · intro db id now
    rw [execUpsert, lookupAddr_upsertRow, if_pos rfl]
  · intro db ids execFails commitFails now h
    unfold updateDatabase
    by_cases hc : commitFails
    · simpa [hc] using h
    · simpa [hc] using keysNodup_foldl_execUpsert now execFails ids db h

/-- Witness for C5: a concrete store and batch, with the key invariant of the
input store discharged by evaluation. -/
theorem identities_unique_wholesale_witness :
    lookupAddr
        (execUpsert 7 [("0xa", ⟨"Candidate", 1, 0, 0⟩)] ⟨"0xa", "Human", 15000⟩)
        "0xa" = some ⟨"Human", 15000, 7, 7⟩ ∧
    keysNodup
      (updateDatabase [("0xa", ⟨"Candidate", 1, 0, 0⟩)]
        [⟨"0xa", "Human", 15000⟩, ⟨"0xb", "Verified", 20000⟩]
        (fun _ => false) false 7) :=
  ⟨identities_unique_wholesale.1 [("0xa", ⟨"Candidate", 1, 0, 0⟩)]
      ⟨"0xa", "Human", 15000⟩ 7,
    identities_unique_wholesale.2 [("0xa", ⟨"Candidate", 1, 0, 0⟩)]
      [⟨"0xa", "Human", 15000⟩, ⟨"0xb", "Verified", 20000⟩]
      (fun _ => false) false 7 (by simp [keysNodup])⟩

/-! ## Atomicity of the bulk upsert (claim C2)

updateDatabase wraps the batch in one transaction, so a failing commit
rolls everything back; but an individual Exec failure only logs and skips
that record while the loop continues and the transaction still commits, so
a mid-batch per-record failure leaves a strict subset of the batch applied. -/

theorem updateDatabase_commit_failed (db : Store) (ids : List IdenaIdentity)
    (execFails : IdenaIdentity → Bool) (now : Nat) :
    updateDatabase db ids execFails true now = db := by
  simp [updateDatabase]

theorem updateDatabase_no_exec_failures (now : Nat)
    (execFails : IdenaIdentity → Bool) :
    ∀ (ids : List IdenaIdentity) (db : Store), (∀ id ∈ ids, execFails id = false) →
      updateDatabase db ids execFails false now = ids.foldl (execUpsert now) db := by
  intro ids
  induction ids with
  | nil => intro db h; simp [updateDatabase]
  | cons id rest ih =>
      intro db h
      have hid : execFails id = false := h id (List.mem_cons_self id rest)
      have hrest := ih (execUpsert now db id) (fun i hi => h i (List.mem_cons_of_mem id hi))
      simp only [updateDatabase, if_neg (Bool.not_eq_true _ ▸ rfl)] at hrest ⊢
      simp only [List.foldl_cons, hid, Bool.false_eq_true, if_false]
      simpa [updateDatabase] using hrest

/-- The two concrete records of the C2 counterexample batch. -/
def cexR1 : IdenaIdentity := ⟨"0xaaa", "Human", 15000⟩

/-- Second record of the C2 counterexample batch; its Exec fails. -/
def cexR2 : IdenaIdentity := ⟨"0xbbb", "Verified", 20000⟩

/-- The Exec-failure oracle of the C2 counterexample: exactly the insertion
of address 0xbbb fails. -/
def cexFails (id : IdenaIdentity) : Bool := id.address == "0xbbb"

/-- Counterexample to claim C2 as stated: starting from the empty store,
upserting the batch [cexR1, cexR2] with the Exec of cexR2 failing mid-batch
(and the commit succeeding) leaves a store that holds cexR1's new row but
not cexR2's - a strict subset of the new batch, equal neither to the
pre-upsert store (empty) nor to the full post-upsert state. -/
theorem updateDatabase_partial_batch_cex :
    updateDatabase [] [cexR1, cexR2] cexFails false 5 = [("0xaaa", rowOf cexR1 5)] ∧
    lookupAddr (updateDatabase [] [cexR1, cexR2] cexFails false 5) cexR1.address =
      some (rowOf cexR1 5) ∧
    lookupAddr (updateDatabase [] [cexR1, cexR2] cexFails false 5) cexR2.address = none ∧
    updateDatabase [] [cexR1, cexR2] cexFails false 5 ≠ ([] : Store) ∧
    updateDatabase [] [cexR1, cexR2] cexFails false 5 ≠
      updateDatabase [] [cexR1, cexR2] (fun _ => false) false 5 := by
  refine ⟨?_, ?_, ?_, ?_, ?_⟩ <;>
    simp [updateDatabase, cexFails, cexR1, cexR2, execUpsert, upsertRow,
      lookupAddr, rowOf]

/-- Claim C2 amended: the upsert is transactional only with respect to the
commit - a failed commit leaves the entire pre-upsert store, and a batch
none of whose records individually fails is applied entirely - but a record
whose own Exec fails is merely skipped while the rest of the batch still
commits, so a per-record failure can leave a strict subset of the batch
visible (as the counterexample shows). -/
theorem updateDatabase_atomicity_amended :
    ∀ (db : Store) (ids : List IdenaIdentity) (execFails : IdenaIdentity → Bool)
      (now : Nat),
      updateDatabase db ids execFails true now = db ∧
      ((∀ id ∈ ids, execFails id = false) →
        updateDatabase db ids execFails false now = ids.foldl (execUpsert now) db) :=
  fun db ids execFails now =>
    ⟨updateDatabase_commit_failed db ids execFails now,
      fun h => updateDatabase_no_exec_failures now execFails ids db h⟩

/-- Witness for the amended C2: on a concrete batch with no per-record
failure, a failed commit yields the pre-state and a successful commit yields
the fully applied batch. -/
theorem updateDatabase_atomicity_amended_witness :
    updateDatabase [] [cexR1, cexR2] (fun _ => false) true 5 = ([] : Store) ∧
    updateDatabase [] [cexR1, cexR2] (fun _ => false) false 5 =
      [cexR1, cexR2].foldl (execUpsert 5) [] :=
  ⟨(updateDatabase_atomicity_amended [] [cexR1, cexR2] (fun _ => false) 5).1,
    (updateDatabase_atomicity_amended [] [cexR1, cexR2] (fun _ => false) 5).2
      (fun _ _ => rfl)⟩

/-! ## Commitment builder

Modelled from the spec: the repository's commitment builder (the Server
handling of /merkle_root that the unit tests exercise) is not among the
provided source files; the design document, section 4.5, specifies it as a
domain-separated binary Merkle tree over the byte-lexicographically sorted
set of eligible addresses, with the odd node paired with itself, and a
sentinel root (the leaf-domain hash of the empty string) for the empty set.
The digest function itself is left open by the spec, so a concrete
64-bit-truncated polynomial fold over the domain-tagged byte sequence
stands in for it; no theorem below relies on any property of the digest
beyond it being a function. -/

/-- Modelled from the spec: the underlying digest H over a byte sequence,
truncated to 64 bits as a stand-in for the unspecified hash function. -/
def hashBytes (bs : List Nat) : Nat :=
  bs.foldl (fun acc b => (acc * 131 + b + 1) % (2 ^ 64)) 5381

/-- The byte sequence of an address string. -/
def addressBytes (a : String) : List Nat := a.data.map Char.toNat

/-- Modelled from the spec: the domain-separated leaf hash H(0x00 || address). -/
def leafHash (a : String) : Nat := hashBytes (0 :: addressBytes a)

/-- A digest rendered as 8 bytes, little-endian, for feeding into an
internal-node hash. -/
def digestBytes (d : Nat) : List Nat :=
  (List.range 8).map (fun i => d / 2 ^ (8 * i) % 256)

/-- Modelled from the spec: the domain-separated internal-node hash
H(0x01 || left || right). -/
def nodeHash (l r : Nat) : Nat :=
  hashBytes (1 :: (digestBytes l ++ digestBytes r))

/-- Modelled from the spec: the sentinel root for zero eligible addresses,
the hash of the empty string under the leaf domain. -/
def emptyRoot : Nat := hashBytes (0 :: addressBytes "")

/-- Modelled from the spec: one bottom-up level of the Merkle tree - adjacent
digests are combined pairwise and an unpaired last digest is paired with
itself. -/
def levelUp : List Nat → List Nat
  | [] => []
  | [x] => [nodeHash x x]
  | x :: y :: rest => nodeHash x y :: levelUp rest

theorem levelUp_length : ∀ l : List Nat, (levelUp l).length = (l.length + 1) / 2
  | [] => by simp [levelUp]
  | [x] => by simp [levelUp]
  | x :: y :: rest => by
      simp only [levelUp, List.length_cons, levelUp_length rest]
      omega

/-- Modelled from the spec: collapse the leaf level bottom-up until a single
digest remains; the empty leaf list yields the sentinel root. -/
def merkleRootOfLeaves : List Nat → Nat
  | [] => emptyRoot
  | [x] => x
  | x :: y :: rest => merkleRootOfLeaves (levelUp (x :: y :: rest))
termination_by l => l.length
decreasing_by
  simp only [levelUp, List.length_cons, levelUp_length]
  omega

/-- Modelled from the spec: the canonical leaf ordering - the address set
(the store is keyed per address, modelled by dedup) sorted in
byte-lexicographic order. -/
def canonicalize (l : List String) : List String :=
  l.dedup.mergeSort (fun a b => decide (a ≤ b))

/-- Modelled from the spec: the commitment root over a list of addresses. -/
def commitmentRoot (addresses : List String) : Nat :=
  merkleRootOfLeaves ((canonicalize addresses).map leafHash)

/-- One hexadecimal digit. -/
def hexChar (d : Nat) : Char :=
  "0123456789abcdef".data.getD d 'f'

/-- A digest rendered as the 16-hex-character string served in the
merkle_root field. -/
def natToHex (n : Nat) : String :=
  ⟨((List.range 16).reverse.map (fun i => hexChar (n / 16 ^ i % 16)))⟩

/-- Modelled from the spec: the serialized commitment root as returned to
callers of the merkle_root capability. -/
def merkleRootHex (addresses : List String) : String :=
  natToHex (commitmentRoot addresses)

/-- Modelled from the spec: the sibling digest and direction for the node at
an index of one level; a direction of true means the sibling sits on the
left, and the unpaired last node of an odd level is its own sibling. -/
def siblingOf (level : List Nat) (idx : Nat) : Nat × Bool :=
  if idx % 2 == 1 then (level.getD (idx - 1) 0, true)
  else (level.getD (idx + 1) (level.getD idx 0), false)

/-- Modelled from the spec: the inclusion-proof path from the leaf at an
index up to the root - the sibling and direction at each level. -/
def proofFrom : List Nat → Nat → List (Nat × Bool)
  | [], _ => []
  | [_], _ => []
  | x :: y :: rest, idx =>
      siblingOf (x :: y :: rest) idx :: proofFrom (levelUp (x :: y :: rest)) (idx / 2)
termination_by l _ => l.length
decreasing_by
  simp only [levelUp, List.length_cons, levelUp_length]
  omega

/-- Modelled from the spec: the proof for an address - locate its leaf in the
canonical ordering, then collect the path; absence yields none. -/
def getProof (addresses : List String) (a : String) : Option (List (Nat × Bool)) :=
  match (canonicalize addresses).indexOf? a with
  | none => none
  | some i => some (proofFrom ((canonicalize addresses).map leafHash) i)

theorem canonicalize_eq_of_set_eq (l₁ l₂ : List String)
    (h : ∀ a, a ∈ l₁ ↔ a ∈ l₂) : canonicalize l₁ = canonicalize l₂ := by
  have hd : l₁.dedup.Perm l₂.dedup := by
    rw [List.perm_ext_iff_of_nodup (List.nodup_dedup l₁) (List.nodup_dedup l₂)]
    intro a
    simp only [List.mem_dedup]
    exact h a
  have hp : (canonicalize l₁).Perm (canonicalize l₂) :=
    ((List.mergeSort_perm l₁.dedup _).trans hd).trans
      (List.mergeSort_perm l₂.dedup _).symm
  exact List.eq_of_perm_of_sorted hp
    (List.sorted_mergeSort' l₁.dedup) (List.sorted_mergeSort' l₂.dedup)

/-- Claim C3: building the commitment over two address lists that are equal
as sets yields the same Merkle root and the same proof for every address,
whatever the arrival order (the canonical ordering makes the commitment a
function of the set alone). -/
theorem commitmentRoot_set_deterministic :
    ∀ l₁ l₂ : List String, (∀ a, a ∈ l₁ ↔ a ∈ l₂) →
      commitmentRoot l₁ = commitmentRoot l₂ ∧
      merkleRootHex l₁ = merkleRootHex l₂ ∧
      ∀ a, getProof l₁ a = getProof l₂ a := by
  intro l₁ l₂ h
  have hc : canonicalize l₁ = canonicalize l₂ := canonicalize_eq_of_set_eq l₁ l₂ h
  refine ⟨?_, ?_, ?_⟩
  · rw [commitmentRoot, commitmentRoot, hc]
  · rw [merkleRootHex, merkleRootHex, commitmentRoot, commitmentRoot, hc]
  · intro a
    rw [getProof, getProof, hc]

/-- Witness for C3: two concrete set-equal ingestion orders (one with a
duplicate arrival) produce identical roots, identical serialized roots and
identical proofs. -/
theorem commitmentRoot_set_deterministic_witness :
    commitmentRoot ["0xb", "0xa"] = commitmentRoot ["0xa", "0xb", "0xa"] ∧
    merkleRootHex ["0xb", "0xa"] = merkleRootHex ["0xa", "0xb", "0xa"] ∧
    ∀ a, getProof ["0xb", "0xa"] a = getProof ["0xa", "0xb", "0xa"] a :=
  commitmentRoot_set_deterministic ["0xb", "0xa"] ["0xa", "0xb", "0xa"]
    (by intro a; simp [List.mem_cons]; tauto)

/-- Claim C8: zero eligible addresses yields the defined sentinel root - the
leaf-domain hash of the empty string - and its serialized form is a fixed
16-character digest string, never empty (the builder is a total function, so
no error and no null value is possible). -/
theorem empty_commitment_sentinel :
    commitmentRoot [] = emptyRoot ∧
    merkleRootHex [] = natToHex emptyRoot ∧
    merkleRootHex [] ≠ "" ∧
    (merkleRootHex []).length = 16 := by
  have hroot : commitmentRoot [] = emptyRoot := by
    rw [commitmentRoot]
    simp only [canonicalize, List.dedup_nil, List.mergeSort_nil, List.map_nil]
    rw [merkleRootOfLeaves]
  refine ⟨hroot, by rw [merkleRootHex, hroot], ?_, ?_⟩
  · rw [merkleRootHex, hroot]
    decide
  · rw [merkleRootHex, hroot]
    decide

/-! ## Idempotence of re-ingestion (claim C7)

Re-ingesting a dataset identical to what is stored leaves the (address,
state, stake) content - and hence the eligible set and the commitment root -
unchanged, but the Go code binds updated_at to time.Now() on every INSERT
OR REPLACE (and the REPLACE re-fills the timestamp column), so the stored
rows themselves, which the query handlers serve, do change. -/

/-- The eligible-address listing of handleEligibleIdentities: SELECT address
WHERE eligible ORDER BY address. -/
def eligibleAddresses (db : Store) : List String :=
  ((db.filter (fun e => eligible e.2.state e.2.stake)).map Prod.fst).mergeSort
    (fun a b => decide (a ≤ b))

theorem eligibleKeys_contentOf (db : Store) :
    (db.filter (fun e => eligible e.2.state e.2.stake)).map Prod.fst =
      ((contentOf db).filter (fun t => eligible t.2.1 t.2.2)).map Prod.fst := by
  induction db with
  | nil => simp [contentOf]
  | cons e rest ih =>
      by_cases he : eligible e.2.state e.2.stake
      · simp [contentOf, List.filter_cons, he, ih]
      · simp only [contentOf, List.map_cons, List.filter_cons] at ih ⊢
        simp [he, ih, contentOf]

theorem eligibleAddresses_congr (db₁ db₂ : Store)
    (h : contentOf db₁ = contentOf db₂) :
    eligibleAddresses db₁ = eligibleAddresses db₂ := by
  rw [eligibleAddresses, eligibleAddresses, eligibleKeys_contentOf,
    eligibleKeys_contentOf, h]

theorem contentOf_execUpsert (now : Nat) (id : IdenaIdentity) :
    ∀ db : Store,
      (∃ row, lookupAddr db id.address = some row ∧
        row.state = id.state ∧ row.stake = id.stake) →
      contentOf (execUpsert now db id) = contentOf db := by
  intro db
  induction db with
  | nil => rintro ⟨row, hrow, -, -⟩; simp [lookupAddr] at hrow
  | cons e rest ih =>
      rintro ⟨row, hrow, hstate, hstake⟩
      obtain ⟨b, old⟩ := e
      by_cases hb : b = id.address
      · subst hb
        have hold : old = row := by simpa [lookupAddr] using hrow
        subst hold
        simp [execUpsert, upsertRow, contentOf, rowOf, hstate, hstake]
      · have hb' : b ≠ id.address := hb
        simp only [lookupAddr, if_neg hb'] at hrow
        have hrec := ih ⟨row, hrow, hstate, hstake⟩
        simp only [execUpsert, upsertRow, if_neg hb', contentOf,
          List.map_cons] at hrec ⊢
        rw [hrec]

theorem contentOf_foldl_execUpsert (now : Nat) :
    ∀ (ids : List IdenaIdentity) (db : Store),
      (∀ id ∈ ids, ∃ row, lookupAddr db id.address = some row ∧
          row.state = id.state ∧ row.stake = id.stake) →
      contentOf (ids.foldl (execUpsert now) db) = contentOf db := by
  intro ids
  induction ids with
  | nil => intro db _; simp
  | cons id rest ih =>
      intro db h
      have hid := h id (List.mem_cons_self id rest)
      have hstep := contentOf_execUpsert now id db hid
      have hrest : ∀ i ∈ rest, ∃ row,
          lookupAddr (execUpsert now db id) i.address = some row ∧
          row.state = i.state ∧ row.stake = i.stake := by
        intro i hi
        obtain ⟨rowi, hrowi, hsi, hti⟩ := h i (List.mem_cons_of_mem id hi)
        by_cases ha : id.address = i.address
        · refine ⟨rowOf id now, ?_, ?_, ?_⟩
          · rw [execUpsert, lookupAddr_upsertRow, if_pos ha]
          · obtain ⟨row0, hrow0, hs0, ht0⟩ := hid
            rw [ha] at hrow0
            rw [hrow0] at hrowi
            cases hrowi
            rw [rowOf]
            rw [← hs0, hsi]
          · obtain ⟨row0, hrow0, hs0, ht0⟩ := hid
            rw [ha] at hrow0
            rw [hrow0] at hrowi
            cases hrowi
            rw [rowOf]
            rw [← ht0, hti]
        · refine ⟨rowi, ?_, hsi, hti⟩
          rw [execUpsert, lookupAddr_upsertRow, if_neg ha]
          exact hrowi
      simp only [List.foldl_cons]
      rw [ih (execUpsert now db id) hrest, hstep]

/-- Counterexample to claim C7 as stated: ingesting one record into the empty
store at time 0 and then re-ingesting the identical dataset at time 1 does
not leave the store's content unchanged - the stored row's timestamp columns
(served by the latest-identities query handler) are rewritten by the second
ingestion. -/
theorem reingest_observable_cex :
    updateDatabase (updateDatabase [] [cexR1] (fun _ => false) false 0)
        [cexR1] (fun _ => false) false 1 ≠
      updateDatabase [] [cexR1] (fun _ => false) false 0 := by
  simp [updateDatabase, execUpsert, upsertRow, rowOf, cexR1]

/-- Claim C7 amended: re-ingesting a remote dataset whose every record
matches what the store already holds (same state and stake at its address)
leaves the store's (address, state, stake) content - and therefore the
eligible address set and the commitment root computed from it - unchanged;
only the timestamp columns of the touched rows advance, as the
counterexample shows. -/
theorem reingest_preserves_content :
    ∀ (db : Store) (ids : List IdenaIdentity) (now : Nat),
      (∀ id ∈ ids, ∃ row, lookupAddr db id.address = some row ∧
          row.state = id.state ∧ row.stake = id.stake) →
      contentOf (updateDatabase db ids (fun _ => false) false now) = contentOf db ∧
      eligibleAddresses (updateDatabase db ids (fun _ => false) false now) =
        eligibleAddresses db ∧
      merkleRootHex
          (eligibleAddresses (updateDatabase db ids (fun _ => false) false now)) =
        merkleRootHex (eligibleAddresses db) := by
  intro db ids now h
  have hfold : updateDatabase db ids (fun _ => false) false now =
      ids.foldl (execUpsert now) db :=
    updateDatabase_no_exec_failures now (fun _ => false) ids db (fun _ _ => rfl)
  have hcontent : contentOf (updateDatabase db ids (fun _ => false) false now) =
      contentOf db := by
    rw [hfold]
    exact contentOf_foldl_execUpsert now ids db h
  have helig := eligibleAddresses_congr _ _ hcontent
  exact ⟨hcontent, helig, by rw [helig]⟩

/-- Witness for the amended C7: a concrete store holding one Human record,
re-ingested wholesale at a later time; the content, the eligible set and the
root are unchanged. -/
theorem reingest_preserves_content_witness :
    contentOf (updateDatabase [("0xaaa", ⟨"Human", 15000, 0, 0⟩)] [cexR1]
        (fun _ => false) false 1) =
      contentOf [("0xaaa", ⟨"Human", 15000, 0, 0⟩)] ∧
    eligibleAddresses (updateDatabase [("0xaaa", ⟨"Human", 15000, 0, 0⟩)] [cexR1]
        (fun _ => false) false 1) =
      eligibleAddresses [("0xaaa", ⟨"Human", 15000, 0, 0⟩)] ∧
    merkleRootHex (eligibleAddresses
        (updateDatabase [("0xaaa", ⟨"Human", 15000, 0, 0⟩)] [cexR1]
          (fun _ => false) false 1)) =
      merkleRootHex (eligibleAddresses [("0xaaa", ⟨"Human", 15000, 0, 0⟩)]) :=
  reingest_preserves_content [("0xaaa", ⟨"Human", 15000, 0, 0⟩)] [cexR1] 1
    (by
      intro id hid
      simp only [List.mem_singleton] at hid
      subst hid
      exact ⟨⟨"Human", 15000, 0, 0⟩, rfl, rfl, rfl⟩)

/-! ## Ingestion scheduler (claim C6)

Run of rolling_indexer/main.go creates a ticker with the configured period,
performs one fetchIdentities call immediately, and then performs one call
per ticker tick.  The embedding records the times (in minutes from startup)
at which fetchIdentities is invoked, for a run observed through a given
number of ticks: the immediate call at time 0, then the tick at every
multiple of the period. -/

/-- The invocation times of fetchIdentities produced by Run over the first
ticks firings of the ticker: the immediate startup fetch at time 0 followed
by one fetch at each multiple of the poll period. -/
def runFetchTimes (intervalMinutes ticks : Nat) : List Nat :=
  0 :: (List.range ticks).map (fun k => (k + 1) * intervalMinutes)

/-- Claim C6: the first fetch cycle runs immediately at startup - at time 0,
strictly before the first full poll period elapses - and every later cycle
k fires at exactly k times the fixed period. -/
theorem run_first_cycle_immediate :
    ∀ intervalMinutes ticks : Nat, 0 < intervalMinutes →
      (runFetchTimes intervalMinutes ticks).head? = some 0 ∧
      (runFetchTimes intervalMinutes ticks).headD intervalMinutes < intervalMinutes ∧
      ∀ k, k < ticks →
        (runFetchTimes intervalMinutes ticks)[k + 1]? =
          some ((k + 1) * intervalMinutes) := by
  intro intervalMinutes ticks hpos
  refine ⟨rfl, by simpa [runFetchTimes] using hpos, ?_⟩
  intro k hk
  simp [runFetchTimes, List.getElem?_map, List.getElem?_range, hk]

/-- Witness for C6: a ten-minute period observed over three ticks. -/
theorem run_first_cycle_immediate_witness :
    (runFetchTimes 10 3).head? = some 0 ∧
    (runFetchTimes 10 3).headD 10 < 10 ∧
    ∀ k, k < 3 → (runFetchTimes 10 3)[k + 1]? = some ((k + 1) * 10) :=
  run_first_cycle_immediate 10 3 (by decide)

end IdenaAuth

namespace IdenaFetcher

/-! ## Batch identity fetcher

agents/identity_fetcher.go: FetchIdentities walks the address list in
batches of BatchSize, fetching each address individually through
fetchIdentity; a failed fetch appends the address to Failed and the loop
continues; a success appends the record to Identities and increments
Successful.  The remote endpoint is abstracted as an oracle from address to
the outcome of its dna_identity call. -/

/-- An identity as decoded from a dna_identity response
(agents/identity_fetcher.go, type IdentityInfo). -/
structure IdentityInfo where
  Address : String
  State : String
  Stake : ℚ
deriving DecidableEq, Repr

/-- The offline snapshot document written by the fetcher
(agents/identity_fetcher.go, type Snapshot). -/
structure Snapshot where
  Timestamp : Nat
  Identities : List IdentityInfo
  Total : Nat
  Successful : Nat
  Failed : List String
deriving DecidableEq, Repr

/-- An authority-reported RPC error (agents/identity_fetcher.go, type
RPCError). -/
structure RPCError where
  code : Int
  message : String
deriving DecidableEq, Repr

/-- A decoded dna_identity RPC response (agents/identity_fetcher.go, type
RPCResponse): an optional result and an optional error. -/
structure RPCResponse where
  Result : Option IdentityInfo
  Error : Option RPCError
deriving DecidableEq, Repr

/-- fetchIdentity of agents/identity_fetcher.go, after the HTTP exchange: a
response of none models a transport, read or unmarshal failure; an
authority-reported error and a missing result are rejected; otherwise the
Address field of the returned record is overwritten with the queried
address before the record is returned. -/
def fetchIdentity (address : String) (resp : Option RPCResponse) :
    Except String IdentityInfo :=
  match resp with
  | none => Except.error "request failed"
  | some r =>
    match r.Error with
    | some e => Except.error ("RPC error: " ++ e.message)
    | none =>
      match r.Result with
      | none => Except.error ("no result for address " ++ address)
      | some info => Except.ok { info with Address := address }

/-- Claim C9: whenever fetchIdentity returns a record without error, the
record's Address field equals the queried address, whatever address (if
any) the remote response carried. -/
theorem fetchIdentity_address_normalized :
    ∀ (address : String) (resp : Option RPCResponse) (info : IdentityInfo),
      fetchIdentity address resp = Except.ok info → info.Address = address := by
  intro address resp info h
  match resp with
  | none => simp [fetchIdentity] at h
  | some r =>
    match hr : r.Error with
    | some e => simp [fetchIdentity, hr] at h
    | none =>
      match hres : r.Result with
      | none => simp [fetchIdentity, hr, hres] at h
      | some i =>
          simp only [fetchIdentity, hr, hres, Except.ok.injEq] at h
          rw [← h]

/-- Witness for C9: a response whose payload reports a different address
still yields a record carrying the queried address. -/
theorem fetchIdentity_address_normalized_witness :
    (⟨"0xqueried", "Human", 5⟩ : IdentityInfo).Address = "0xqueried" :=
  fetchIdentity_address_normalized "0xqueried"
    (some ⟨some ⟨"0xelsewhere", "Human", 5⟩, none⟩)
    ⟨"0xqueried", "Human", 5⟩ rfl

/-- One iteration of the inner loop of FetchIdentities for one address: a
failure is appended to Failed, a success to Identities with Successful
incremented. -/
def processAddress (fetch : String → Option IdentityInfo) (snap : Snapshot)
    (address : String) : Snapshot :=
  match fetch address with
  | none => { snap with Failed := snap.Failed ++ [address] }
  | some identity =>
      { snap with Identities := snap.Identities ++ [identity],
                  Successful := snap.Successful + 1 }

/-- The inner loop of FetchIdentities over one batch. -/
def processBatch (fetch : String → Option IdentityInfo) (snap : Snapshot)
    (batch : List String) : Snapshot :=
  batch.foldl (processAddress fetch) snap

/-- The outer loop of FetchIdentities: take a batch of batchSize addresses,
process it, and continue with the rest (the inter-batch pause has no effect
on the data). -/
def fetchLoop (fetch : String → Option IdentityInfo) (batchSize : Nat) :
    List String → Snapshot → Snapshot
  | [], snap => snap
  | a :: rest, snap =>
      fetchLoop fetch batchSize (rest.drop (batchSize - 1))
        (processBatch fetch snap (a :: rest.take (batchSize - 1)))
termination_by l _ => l.length
decreasing_by
  simp only [List.length_cons, List.length_drop]
  omega

/-- FetchIdentities of agents/identity_fetcher.go: the snapshot assembled
from the whole address list, starting from the empty accumulator with Total
set to the number of input addresses. -/
def FetchIdentities (fetch : String → Option IdentityInfo) (batchSize : Nat)
    (now : Nat) (addresses : List String) : Snapshot :=
  fetchLoop fetch batchSize addresses
    { Timestamp := now, Identities := [], Total := addresses.length,
      Successful := 0, Failed := [] }

theorem processBatch_append (fetch : String → Option IdentityInfo)
    (xs ys : List String) (snap : Snapshot) :
    processBatch fetch snap (xs ++ ys) =
      processBatch fetch (processBatch fetch snap xs) ys := by
  simp [processBatch, List.foldl_append]

theorem fetchLoop_eq_processBatch (fetch : String → Option IdentityInfo)
    (batchSize : Nat) :
    ∀ (n : Nat) (l : List String) (snap : Snapshot), l.length ≤ n →
      fetchLoop fetch batchSize l snap = processBatch fetch snap l := by
  intro n
  induction n with
  | zero =>
      intro l snap hl
      rw [List.length_eq_zero.mp (Nat.le_zero.mp hl)]
      rw [fetchLoop]
      simp [processBatch]
  | succ m ih =>
      intro l snap hl
      match l with
      | [] => rw [fetchLoop]; simp [processBatch]
      | a :: rest =>
          rw [fetchLoop]
          have hlen : (rest.drop (batchSize - 1)).length ≤ m := by
            simp only [List.length_drop, List.length_cons] at hl ⊢
            omega
          rw [ih (rest.drop (batchSize - 1)) _ hlen]
          rw [← processBatch_append]
          congr 1
          simp [List.take_append_drop]

theorem processBatch_spec (fetch : String → Option IdentityInfo) :
    ∀ (l : List String) (snap : Snapshot),
      (processBatch fetch snap l).Failed =
        snap.Failed ++ l.filter (fun a => (fetch a).isNone) ∧
      (processBatch fetch snap l).Identities =
        snap.Identities ++ l.filterMap fetch ∧
      (processBatch fetch snap l).Successful =
        snap.Successful + l.countP (fun a => (fetch a).isSome) ∧
      (processBatch fetch snap l).Total = snap.Total := by
  intro l
  induction l with
  | nil => intro snap; simp [processBatch]
  | cons a rest ih =>
      intro snap
      have hstep : processBatch fetch snap (a :: rest) =
          processBatch fetch (processAddress fetch snap a) rest := by
        simp [processBatch]
      cases hf : fetch a with
      | none =>
          have h := ih { snap with Failed := snap.Failed ++ [a] }
          rw [hstep, processAddress, hf]
          simp only [List.filter_cons, List.filterMap_cons, List.countP_cons, hf,
            Option.isNone_none, Option.isSome_none, if_true, cond_true]
          refine ⟨?_, h.2.1, by simpa using h.2.2.1, h.2.2.2⟩
          rw [h.1]
          simp
      | some v =>
          have h := ih { snap with Identities := snap.Identities ++ [v],
                                   Successful := snap.Successful + 1 }
          rw [hstep, processAddress, hf]
          simp only [List.filter_cons, List.filterMap_cons, List.countP_cons, hf,
            Option.isNone_some, Option.isSome_some, if_false, cond_false]
          refine ⟨by simpa using h.1, ?_, ?_, h.2.2.2⟩
          · rw [h.2.1]
            simp
          · rw [h.2.2.1]
            simp
            omega

theorem length_filterMap_eq_countP (fetch : String → Option IdentityInfo) :
    ∀ l : List String,
      (l.filterMap fetch).length = l.countP (fun a => (fetch a).isSome) := by
  intro l
  induction l with
  | nil => simp
  | cons a rest ih =>
      cases hf : fetch a <;>
        simp [List.filterMap_cons, List.countP_cons, hf, ih]

theorem countP_isSome_add_filter_isNone (fetch : String → Option IdentityInfo) :
    ∀ l : List String,
      l.countP (fun a => (fetch a).isSome) +
        (l.filter (fun a => (fetch a).isNone)).length = l.length := by
  intro l
  induction l with
  | nil => simp
  | cons a rest ih =>
      cases hf : fetch a <;>
        simp [List.filter_cons, List.countP_cons, hf] <;>
        omega

/-- Claim C4: in the batched fetch, every address whose individual fetch
fails is recorded in the Failed list while every other address of that and
every later batch is still fetched - the resulting Identities list holds the
successful record of every address in the input, and a per-address failure
never aborts the run. -/
theorem fetchIdentities_failures_isolated :
    ∀ (fetch : String → Option IdentityInfo) (batchSize now : Nat)
      (addresses : List String), 1 ≤ batchSize →
      (FetchIdentities fetch batchSize now addresses).Failed =
        addresses.filter (fun a => (fetch a).isNone) ∧
      (FetchIdentities fetch batchSize now addresses).Identities =
        addresses.filterMap fetch := by
  intro fetch batchSize now addresses _
  rw [FetchIdentities,
    fetchLoop_eq_processBatch fetch batchSize addresses.length addresses _
      (Nat.le_refl _)]
  have h := processBatch_spec fetch addresses
    { Timestamp := now, Identities := [], Total := addresses.length,
      Successful := 0, Failed := [] }
  exact ⟨by simpa using h.1, by simpa using h.2.1⟩

/-- The concrete fetch oracle of the fetcher witnesses: exactly the address
0xbad fails, every other address resolves to a Human record. -/
def demoFetch (a : String) : Option IdentityInfo :=
  if a = "0xbad" then none else some ⟨a, "Human", 20000⟩

/-- Witness for C4: with a batch size of 2, the failing middle address lands
in Failed and both surrounding addresses (one in the same batch, one in the
next) are still fetched. -/
theorem fetchIdentities_failures_isolated_witness :
    (FetchIdentities demoFetch 2 0 ["0xa", "0xbad", "0xc"]).Failed = ["0xbad"] ∧
    (FetchIdentities demoFetch 2 0 ["0xa", "0xbad", "0xc"]).Identities =
      [⟨"0xa", "Human", 20000⟩, ⟨"0xc", "Human", 20000⟩] := by
  have h := fetchIdentities_failures_isolated demoFetch 2 0
    ["0xa", "0xbad", "0xc"] (by decide)
  exact ⟨h.1.trans (by decide), h.2.trans (by decide)⟩

/-- Claim C10: the snapshot produced by the batch fetch satisfies the
accounting invariant - Total is the number of input addresses, Successful is
the length of the Identities list, and Successful plus the length of Failed
equals Total. -/
theorem snapshot_accounting :
    ∀ (fetch : String → Option IdentityInfo) (batchSize now : Nat)
      (addresses : List String), 1 ≤ batchSize →
      (FetchIdentities fetch batchSize now addresses).Total = addresses.length ∧
      (FetchIdentities fetch batchSize now addresses).Successful =
        (FetchIdentities fetch batchSize now addresses).Identities.length ∧
      (FetchIdentities fetch batchSize now addresses).Successful +
          (FetchIdentities fetch batchSize now addresses).Failed.length =
        (FetchIdentities fetch batchSize now addresses).Total := by
  intro fetch batchSize now addresses _
  rw [FetchIdentities,
    fetchLoop_eq_processBatch fetch batchSize addresses.length addresses _
      (Nat.le_refl _)]
  have h := processBatch_spec fetch addresses
    { Timestamp := now, Identities := [], Total := addresses.length,
      Successful := 0, Failed := [] }
  refine ⟨h.2.2.2, ?_, ?_⟩
  · rw [h.2.2.1, h.2.1]
    simp [length_filterMap_eq_countP]
  · rw [h.2.2.1, h.1, h.2.2.2]
    simpa using countP_isSome_add_filter_isNone fetch addresses

/-- Witness for C10: the accounting holds on the three-address run with one
failure - Total 3, Successful 2, Failed of length 1. -/
theorem snapshot_accounting_witness :
    (FetchIdentities demoFetch 2 0 ["0xa", "0xbad", "0xc"]).Total = 3 ∧
    (FetchIdentities demoFetch 2 0 ["0xa", "0xbad", "0xc"]).Successful =
      (FetchIdentities demoFetch 2 0 ["0xa", "0xbad", "0xc"]).Identities.length ∧
    (FetchIdentities demoFetch 2 0 ["0xa", "0xbad", "0xc"]).Successful +
        (FetchIdentities demoFetch 2 0 ["0xa", "0xbad", "0xc"]).Failed.length =
      (FetchIdentities demoFetch 2 0 ["0xa", "0xbad", "0xc"]).Total := by
  have h := snapshot_accounting demoFetch 2 0 ["0xa", "0xbad", "0xc"] (by decide)
  exact ⟨h.1.trans (by decide), h.2.1, h.2.2⟩

end IdenaFetcher
